import Mathlib

/-!
# Verification of the OR-INF transport modelling exercise

Shallow embedding of the algorithmic core of `exercise_test_network.ipynb`:
the multinomial-logit mode-choice function `mnl`, the Smock-type congested
travel-time function `travel_time`, the congestion-update step over the links
table, and the fixed-point iteration driver.  Floating-point numbers are
modelled by real numbers; a pandas row is modelled by a column-name lookup
function `String → ℝ`; missing (learner-blank) notebook cells are modelled
from the specification where a claim requires them.
-/

namespace TransportExercise

/-- The transport modes of the exercise network (column `mode` of the links
table takes exactly the values `'car'` and `'rail'`). -/
inductive Mode where
  | car : Mode
  | rail : Mode
deriving DecidableEq, Inhabited

/-- One row of the links table, with the base columns (`a`, `b`, `mode`,
`dist`, `time`, `cost`, `cap`) and the derived columns used by the
congestion/iteration stage (`volumes`, `probs`, `pkm`, `time_2`).
Geometry columns are out of scope. -/
structure Link where
  a : Nat
  b : Nat
  mode : Mode
  dist : ℝ
  time : ℝ
  cost : ℝ
  cap : ℝ
  volumes : ℝ
  probs : ℝ
  pkm : ℝ
  time_2 : ℝ
deriving Inhabited

/-- Column lookup on a `Link` row, giving the LoS attributes by their
DataFrame column names (as the notebook's `row[col]` access does);
unknown column names default to `0`. -/
def linkRow (l : Link) : String → ℝ := fun s =>
  if s = "time" then l.time
  else if s = "time_2" then l.time_2
  else if s = "cost" then l.cost
  else if s = "dist" then l.dist
  else if s = "cap" then l.cap
  else if s = "volumes" then l.volumes
  else 0

/-- The utility of one row, from the source of `mnl`:
`- sum([row[los_col_names[i]] * beta[i] for i in range(len(los_col_names))])`.
Python's fallible indexing is modelled with `getD`; the defaults are
irrelevant under the equal-length hypothesis of the spec. -/
noncomputable def mnl_v (los_col_names : List String) (beta : List ℝ)
    (row : String → ℝ) : ℝ :=
  - ((List.range los_col_names.length).map
      (fun i => row (los_col_names.getD i "") * beta.getD i 0)).sum

/-- The multinomial-logit mode-choice function, from the source:
`v = [- sum(...) for _, row in od_pair.iterrows()]` and
`p = [np.exp(val) / sum([np.exp(m) for m in v]) for val in v]`.
The OD-pair DataFrame slice is modelled as the list of its rows. -/
noncomputable def mnl (od_pair : List (String → ℝ)) (los_col_names : List String)
    (beta : List ℝ) : List ℝ :=
  let v := od_pair.map (mnl_v los_col_names beta)
  v.map (fun val => Real.exp val / (v.map Real.exp).sum)

/-- The utility formula exactly as the spec words it:
`v_i = - Σ_k weight_k * link_i.attribute_k` over the (attribute, weight)
pairs. -/
noncomputable def spec_utility (los_col_names : List String) (beta : List ℝ)
    (row : String → ℝ) : ℝ :=
  - ((los_col_names.zip beta).map (fun ab => ab.2 * row ab.1)).sum

/-- The congested travel-time function, from the source:
`return 0.5 * time * np.exp(volumes / capacity)` (Smock 1962). -/
noncomputable def travel_time (volumes capacity time : ℝ) : ℝ :=
  0.5 * time * Real.exp (volumes / capacity)

/-- The congestion update on one links-table row, from the source:
`travel_time(row['volumes'], row['cap'], row['time']) if row['mode']=='car'
else row['time']`, written to the derived column `time_2`. -/
noncomputable def congestionStep (l : Link) : Link :=
  { l with time_2 := if l.mode = Mode.car then travel_time l.volumes l.cap l.time
                     else l.time }

/-- The congestion update over the whole links table, from the source list
comprehension `links['time_2'] = [... for _, row in links.iterrows()]`. -/
noncomputable def congestionUpdate (links : List Link) : List Link :=
  links.map congestionStep

/-- Modelled from the spec: one round of the fixed-point iteration (the body
of the notebook's `for j in range(10)` loop is a learner-blank cell).  Per
OD-mode group: (1) recompute mode-choice probabilities with `mnl` on the
current LoS attributes, (2) recompute volumes as demand times probability and
pkm as volume times distance, (3) recompute the congested time via the
congestion update.  The links table is modelled grouped by OD pair. -/
noncomputable def roundStep (los_col_names : List String) (beta : List ℝ)
    (demand : Nat → Nat → ℝ) (groups : List (List Link)) : List (List Link) :=
  groups.map (fun g =>
    let probs := mnl (g.map linkRow) los_col_names beta
    (g.zip probs).map (fun lp =>
      let vol := demand lp.1.a lp.1.b * lp.2
      congestionStep { lp.1 with probs := lp.2, volumes := vol,
                                 pkm := vol * lp.1.dist }))

/-- The fixed-point iteration driver, from the source loop
`for j in range(10): ...`: it applies the round update once per loop index
and returns the resulting state (the per-iteration `print` is diagnostic
output with no effect on the state). -/
def fixedPointDriver {State : Type} (step : State → State) (s0 : State) :
    State :=
  (List.range 10).foldl (fun s _ => step s) s0

/-! ## Helper lemmas -/

/-- Under the equal-length hypothesis, the indexed sum of the source's
`mnl_v` coincides with the zipped sum of the spec's utility formula. -/
lemma mnl_v_eq_spec_utility (los_col_names : List String) (beta : List ℝ)
    (row : String → ℝ) (hlen : los_col_names.length = beta.length) :
    mnl_v los_col_names beta row = spec_utility los_col_names beta row := by
  unfold mnl_v spec_utility
  congr 1
  induction los_col_names generalizing beta with
  | nil => simp
  | cons c cs ih =>
    cases beta with
    | nil => simp at hlen
    | cons b bs =>
      simp only [List.length_cons, List.range_succ_eq_map, List.map_cons,
        List.map_map, List.zip_cons_cons, List.sum_cons, Function.comp,
        List.getD_cons_zero, List.getD_cons_succ]
      rw [mul_comm (row c) b]
      congr 1
      exact ih bs (by simpa using hlen)

/-- A list of positive reals with at least two entries strictly dominates
each of its entries. -/
lemma lt_sum_of_mem_of_two_le (l : List ℝ) (x : ℝ)
    (hpos : ∀ y ∈ l, 0 < y) (hx : x ∈ l) (hlen : 2 ≤ l.length) :
    x < l.sum := by
  cases l with
  | nil => simp at hx
  | cons a t =>
    have ht : t ≠ [] := by
      intro h
      rw [h] at hlen
      simp at hlen
    rcases List.mem_cons.mp hx with h | h
    · subst h
      have htpos : 0 < t.sum := by
        refine List.sum_pos t (fun y hy => hpos y (List.mem_cons_of_mem _ hy)) ht
      simp only [List.sum_cons]
      linarith
    · have hxt : x ≤ t.sum := by
        refine List.single_le_sum (fun y hy => le_of_lt (hpos y (List.mem_cons_of_mem _ hy))) x h
      have ha : 0 < a := hpos a (List.mem_cons_self a t)
      simp only [List.sum_cons]
      linarith

/-- The denominator of `mnl` is positive for a non-empty group. -/
lemma mnl_denom_pos (v : List ℝ) (hne : v ≠ []) :
    0 < (v.map Real.exp).sum := by
  refine List.sum_pos _ (fun y hy => ?_) (by simpa using hne)
  rcases List.mem_map.mp hy with ⟨x, _, rfl⟩
  exact Real.exp_pos x

/-- Unfolding lemma for `mnl`. -/
lemma mnl_def (od_pair : List (String → ℝ)) (los_col_names : List String)
    (beta : List ℝ) :
    mnl od_pair los_col_names beta =
      (od_pair.map (mnl_v los_col_names beta)).map
        (fun val => Real.exp val /
          ((od_pair.map (mnl_v los_col_names beta)).map Real.exp).sum) := rfl

/-! ## Claim theorems -/

/-- C1: on a non-empty group with equal-length attribute and weight lists,
the mode-choice function returns one probability per input link in input
order, the i-th being `exp(v_i) / Σ_j exp(v_j)` with the utility
`v_i = - Σ_k weight_k * attribute_k(link_i)` as the spec states it. -/
theorem mnl_computes_multinomial_logit (od_pair : List (String → ℝ))
    (los_col_names : List String) (beta : List ℝ)
    (hne : od_pair ≠ []) (hlen : los_col_names.length = beta.length) :
    (mnl od_pair los_col_names beta).length = od_pair.length ∧
    ∀ i, i < od_pair.length →
      (mnl od_pair los_col_names beta).getD i 0 =
        Real.exp (spec_utility los_col_names beta
            (od_pair.getD i (fun _ => 0))) /
          ((od_pair.map (spec_utility los_col_names beta)).map Real.exp).sum := by
  have hfun : mnl_v los_col_names beta = spec_utility los_col_names beta :=
    funext (fun row => mnl_v_eq_spec_utility los_col_names beta row hlen)
  have hlen1 : (mnl od_pair los_col_names beta).length = od_pair.length := by
    simp [mnl_def]
  refine ⟨hlen1, fun i hi => ?_⟩
  have hi1 : i < (mnl od_pair los_col_names beta).length := by
    rw [hlen1]; exact hi
  rw [List.getD_eq_getElem _ _ hi1, List.getD_eq_getElem _ _ hi]
  simp [mnl_def, hfun]

/-- Witness for C1: a two-link group with the notebook's `time` attribute
and weight 1.5 yields two probabilities. -/
theorem mnl_computes_multinomial_logit_witness :
    (mnl [fun _ => (3 : ℝ), fun _ => (2 : ℝ)] ["time"] [3 / 2]).length = 2 :=
  (mnl_computes_multinomial_logit [fun _ => (3 : ℝ), fun _ => (2 : ℝ)]
    ["time"] [3 / 2] (by simp) (by simp)).1

/-- C3 counterexample: on a one-link group the single returned probability
is exactly 1, so the probabilities are not all strictly below 1. -/
theorem mnl_singleton_probability_not_below_one :
    ¬ (∀ p ∈ mnl [fun _ => (3 : ℝ)] ["time"] [3 / 2], p < 1) := by
  intro h
  have hmem : (1 : ℝ) ∈ mnl [fun _ => (3 : ℝ)] ["time"] [3 / 2] := by
    have h1 : mnl [fun _ => (3 : ℝ)] ["time"] [3 / 2] = [1] := by
      simp [mnl_def, div_self, Real.exp_ne_zero]
    rw [h1]
    simp
  exact absurd (h 1 hmem) (by norm_num)

/-- C3 (amended): on every non-empty group the probabilities returned by the
mode-choice function sum exactly to 1 and each lies in (0, 1]; each is
strictly below 1 as soon as the group has at least two links. -/
theorem mnl_probabilities (od_pair : List (String → ℝ))
    (los_col_names : List String) (beta : List ℝ) (hne : od_pair ≠ []) :
    (mnl od_pair los_col_names beta).sum = 1 ∧
    (∀ p ∈ mnl od_pair los_col_names beta, 0 < p ∧ p ≤ 1) ∧
    (2 ≤ od_pair.length → ∀ p ∈ mnl od_pair los_col_names beta, p < 1) := by
  have hvne : od_pair.map (mnl_v los_col_names beta) ≠ [] := by
    simpa using hne
  have hS : 0 < ((od_pair.map (mnl_v los_col_names beta)).map Real.exp).sum :=
    mnl_denom_pos _ hvne
  have hS0 : ((od_pair.map (mnl_v los_col_names beta)).map Real.exp).sum ≠ 0 :=
    ne_of_gt hS
  refine ⟨?_, ?_, ?_⟩
  · rw [mnl_def]
    simp only [div_eq_mul_inv]
    rw [List.sum_map_mul_right]
    exact mul_inv_cancel₀ hS0
  · intro p hp
    rw [mnl_def] at hp
    rcases List.mem_map.mp hp with ⟨val, hval, rfl⟩
    constructor
    · exact div_pos (Real.exp_pos val) hS
    · rw [div_le_one hS]
      refine List.single_le_sum (fun y hy => ?_) _ (List.mem_map_of_mem _ hval)
      rcases List.mem_map.mp hy with ⟨x, _, rfl⟩
      exact le_of_lt (Real.exp_pos x)
  · intro hlen2 p hp
    rw [mnl_def] at hp
    rcases List.mem_map.mp hp with ⟨val, hval, rfl⟩
    rw [div_lt_one hS]
    refine lt_sum_of_mem_of_two_le _ _ (fun y hy => ?_)
      (List.mem_map_of_mem _ hval) (by simpa using hlen2)
    rcases List.mem_map.mp hy with ⟨x, _, rfl⟩
    exact Real.exp_pos x

/-- Witness for the amended C3 on a concrete two-link group. -/
theorem mnl_probabilities_witness :
    (mnl [fun _ => (3 : ℝ), fun _ => (2 : ℝ)] ["time"] [3 / 2]).sum = 1 :=
  (mnl_probabilities [fun _ => (3 : ℝ), fun _ => (2 : ℝ)] ["time"] [3 / 2]
    (by simp)).1

/-- C2: the congested-time function returns exactly
`0.5 * freeFlowTime * exp(volume / capacity)`; in particular at zero volume,
positive capacity and nonnegative free-flow time it returns
`0.5 * freeFlowTime`, which differs from the free-flow time whenever the
latter is positive (it does not reduce to free-flow time at zero load). -/
theorem travel_time_formula_and_zero_load (v C T : ℝ) (hC : 0 < C)
    (hT : 0 ≤ T) :
    travel_time v C T = 0.5 * T * Real.exp (v / C) ∧
    travel_time 0 C T = 0.5 * T ∧
    (0 < T → travel_time 0 C T ≠ T) := by
  have h0 : travel_time 0 C T = 0.5 * T := by
    simp [travel_time]
  refine ⟨rfl, h0, fun hTpos => ?_⟩
  rw [h0]
  intro heq
  linarith

/-- Witness for C2 at volume 0, capacity 1, free-flow time 2. -/
theorem travel_time_formula_and_zero_load_witness :
    travel_time 0 1 2 = 0.5 * 2 :=
  (travel_time_formula_and_zero_load 0 1 2 (by norm_num) (by norm_num)).2.1

/-- C4: for fixed positive capacity and positive free-flow time, the
congested-time function is strictly increasing in volume. -/
theorem travel_time_strictMono_in_volume (C T v1 v2 : ℝ) (hC : 0 < C)
    (hT : 0 < T) (hv : v1 < v2) :
    travel_time v1 C T < travel_time v2 C T := by
  unfold travel_time
  have h1 : v1 / C < v2 / C := by gcongr
  have h2 := Real.exp_lt_exp.mpr h1
  have h3 : 0 < 0.5 * T := by linarith
  exact mul_lt_mul_of_pos_left h2 h3

/-- Witness for C4 at capacity 1, free-flow time 1, volumes 0 < 1. -/
theorem travel_time_strictMono_in_volume_witness :
    travel_time 0 1 1 < travel_time 1 1 1 :=
  travel_time_strictMono_in_volume 1 1 0 1 (by norm_num) (by norm_num)
    (by norm_num)

/-- C5 counterexample: at the non-positive capacity -1 (volume 0, free-flow
time 2) the congested-time function silently returns the value 1 — no
failure of the computation occurs. -/
theorem travel_time_negative_capacity_silently_returns :
    travel_time 0 (-1) 2 = 1 := by
  norm_num [travel_time]

/-- C5 (amended): the congested-time function performs no capacity
validation: with a non-positive capacity it still totally computes
`0.5 * T * exp(v / C)` and, for positive free-flow time, silently returns a
strictly positive finite value; no InvalidCapacity error is raised. -/
theorem travel_time_nonpositive_capacity_no_error (v C T : ℝ)
    (hC : C ≤ 0) (hT : 0 < T) :
    travel_time v C T = 0.5 * T * Real.exp (v / C) ∧
    0 < travel_time v C T := by
  refine ⟨rfl, ?_⟩
  unfold travel_time
  positivity

/-- Witness for the amended C5 at volume 0, capacity -1, free-flow time 2. -/
theorem travel_time_nonpositive_capacity_no_error_witness :
    0 < travel_time 0 (-1) 2 :=
  (travel_time_nonpositive_capacity_no_error 0 (-1) 2 (by norm_num)
    (by norm_num)).2

/-- C6 counterexample: requesting mode-choice probabilities on the empty
group returns the empty list silently — no error aborts the computation. -/
theorem mnl_empty_group_returns_empty :
    mnl [] ["time"] [1.5] = [] := rfl

/-- C6 (amended): on an empty OD-mode group, the mode-choice function
silently returns the empty probability list for every attribute and weight
configuration; no EmptyGroup error is raised. -/
theorem mnl_empty_group (los_col_names : List String) (beta : List ℝ) :
    mnl [] los_col_names beta = [] := rfl

/-- C8: halving the capacity at constant volume multiplies the congested
time by exactly `exp(volume / capacity)`. -/
theorem travel_time_halved_capacity (v C T : ℝ) (hv : 0 ≤ v) (hC : 0 < C)
    (hT : 0 < T) :
    travel_time v (C / 2) T = Real.exp (v / C) * travel_time v C T := by
  unfold travel_time
  have hC0 : C ≠ 0 := ne_of_gt hC
  have h : v / (C / 2) = v / C + v / C := by
    field_simp
    ring
  rw [h, Real.exp_add]
  ring

/-- Witness for C8 at volume 0, capacity 2, free-flow time 1. -/
theorem travel_time_halved_capacity_witness :
    travel_time 0 (2 / 2) 1 = Real.exp (0 / 2) * travel_time 0 2 1 :=
  travel_time_halved_capacity 0 2 1 le_rfl (by norm_num) (by norm_num)

/-- C7: the congestion update maps each row through `congestionStep`, which
leaves the base columns `dist`, `time` and `cap` unmodified, writes the
congested time to the separate derived column `time_2`, applies the
Smock formula only to car links, and gives every rail link its free-flow
time unchanged. -/
theorem congestion_update_frame (links : List Link) (l : Link)
    (hl : l ∈ links) :
    congestionStep l ∈ congestionUpdate links ∧
    (congestionStep l).dist = l.dist ∧
    (congestionStep l).time = l.time ∧
    (congestionStep l).cap = l.cap ∧
    (l.mode = Mode.rail → (congestionStep l).time_2 = l.time) ∧
    (l.mode = Mode.car →
      (congestionStep l).time_2 = travel_time l.volumes l.cap l.time) := by
  refine ⟨List.mem_map_of_mem _ hl, rfl, rfl, rfl, ?_, ?_⟩
  · intro h
    simp [congestionStep, h]
  · intro h
    simp [congestionStep, h]

/-- A concrete rail link used to witness the congestion frame theorem. -/
def railLinkExample : Link :=
  { a := 0, b := 1, mode := Mode.rail, dist := 255, time := 1.8, cost := 60,
    cap := 500, volumes := 400, probs := 0, pkm := 0, time_2 := 0 }

/-- Witness for C7 on a concrete rail link in a one-row table. -/
theorem congestion_update_frame_witness :
    (congestionStep railLinkExample).time_2 = railLinkExample.time :=
  (congestion_update_frame [railLinkExample] railLinkExample
    (by simp)).2.2.2.2.1 rfl

/-- C9: the fixed-point iteration driver performs exactly ten rounds of the
probability/volume/congested-time update and returns the state reached after
the final round, for every input; no convergence test shortens or extends
the count. -/
theorem fixedPointDriver_runs_ten_rounds (los_col_names : List String)
    (beta : List ℝ) (demand : Nat → Nat → ℝ) (groups : List (List Link)) :
    fixedPointDriver (roundStep los_col_names beta demand) groups =
      (roundStep los_col_names beta demand)^[10] groups := rfl

/-- C10: for positive capacity and free-flow time, the congested time lies
strictly below the free-flow time exactly when the volume is below
`C * ln 2`, equals it exactly at `C * ln 2`, and exceeds it exactly above
`C * ln 2` — at low load the Smock formula speeds travel up relative to
free flow, because of the 0.5 prefactor. -/
theorem travel_time_vs_free_flow (v C T : ℝ) (hC : 0 < C) (hT : 0 < T) :
    (travel_time v C T < T ↔ v < C * Real.log 2) ∧
    (travel_time v C T = T ↔ v = C * Real.log 2) ∧
    (T < travel_time v C T ↔ C * Real.log 2 < v) := by
  have h2 : (0 : ℝ) < 2 := by norm_num
  have hdiv : ∀ w : ℝ, Real.exp (w / C) < 2 ↔ w < C * Real.log 2 := by
    intro w
    rw [← Real.lt_log_iff_exp_lt h2, div_lt_iff₀ hC, mul_comm (Real.log 2) C]
  have hdiv2 : ∀ w : ℝ, 2 < Real.exp (w / C) ↔ C * Real.log 2 < w := by
    intro w
    rw [← Real.log_lt_iff_lt_exp h2, lt_div_iff₀ hC, mul_comm (Real.log 2) C]
  have hlt : travel_time v C T < T ↔ v < C * Real.log 2 := by
    rw [← hdiv v]
    unfold travel_time
    constructor
    · intro h
      nlinarith [Real.exp_pos (v / C)]
    · intro h
      nlinarith
  have hgt : T < travel_time v C T ↔ C * Real.log 2 < v := by
    rw [← hdiv2 v]
    unfold travel_time
    constructor
    · intro h
      nlinarith [Real.exp_pos (v / C)]
    · intro h
      nlinarith
  refine ⟨hlt, ?_, hgt⟩
  constructor
  · intro h
    have h1 : ¬ v < C * Real.log 2 := fun hc => by
      have := hlt.mpr hc
      rw [h] at this
      exact lt_irrefl T this
    have h2' : ¬ C * Real.log 2 < v := fun hc => by
      have := hgt.mpr hc
      rw [h] at this
      exact lt_irrefl T this
    exact le_antisymm (not_lt.mp h2') (not_lt.mp h1)
  · intro h
    subst h
    unfold travel_time
    have hx : C * Real.log 2 / C = Real.log 2 :=
      mul_div_cancel_left₀ (Real.log 2) (ne_of_gt hC)
    rw [hx, Real.exp_log h2]
    ring

/-- Witness for C10 at volume 0, capacity 1, free-flow time 1: the
congested time is strictly below the free-flow time. -/
theorem travel_time_vs_free_flow_witness :
    travel_time 0 1 1 < 1 :=
  (travel_time_vs_free_flow 0 1 1 (by norm_num) (by norm_num)).1.mpr
    (by simpa using Real.log_pos (by norm_num))

end TransportExercise
